import Mathlib

/-!
Verification development for the pf2e check-outcome and damage-dialog code.

The embedding follows `src/module/system/check-degree-of-success.ts` and
`src/module/system/damage/dialog.ts`.  The enumerations `DegreeOfSuccess`
and `DegreeAdjustment`, the function `adjustDegreeOfSuccess`, and the
function `applyStackingRules` are imported by those files from modules
(`degree-of-success`, `@actor/modifiers.ts`) that are not part of the
sources at hand; those are modelled from the specification, and each such
definition is marked as `Modelled from the spec:` in its doc comment.
-/

namespace PF2E

/-- Modelled from the spec: the `DegreeOfSuccess` enumeration from the
`degree-of-success` module (not among the given sources) is the ordered
enumeration `CRITICAL_FAILURE < FAILURE < SUCCESS < CRITICAL_SUCCESS`
represented as consecutive integers 0..3. -/
inductive DegreeOfSuccess where
  | CRITICAL_FAILURE
  | FAILURE
  | SUCCESS
  | CRITICAL_SUCCESS
deriving DecidableEq, Repr

/-- Modelled from the spec: the numeric value of a degree of success
(consecutive integers, here 0..3). -/
def DegreeOfSuccess.toVal : DegreeOfSuccess → Int
  | .CRITICAL_FAILURE => 0
  | .FAILURE => 1
  | .SUCCESS => 2
  | .CRITICAL_SUCCESS => 3

/-- Modelled from the spec: the `DegreeAdjustment` enumeration from the
`degree-of-success` module (not among the given sources): a signed step
count applied to a `DegreeOfSuccess`. -/
inductive DegreeAdjustment where
  | LOWER_BY_TWO
  | LOWER
  | INCREASE
  | INCREASE_BY_TWO
deriving DecidableEq, Repr

/-- Modelled from the spec: `LOWER_BY_TWO(-2), LOWER(-1), INCREASE(+1),
INCREASE_BY_TWO(+2)`. -/
def DegreeAdjustment.step : DegreeAdjustment → Int
  | .LOWER_BY_TWO => -2
  | .LOWER => -1
  | .INCREASE => 1
  | .INCREASE_BY_TWO => 2

/-- The five selector keys of the `CheckDCModifiers` interface
(`check-degree-of-success.ts`, lines 14-20). -/
inductive Selector where
  | all
  | criticalFailure
  | failure
  | success
  | criticalSuccess
deriving DecidableEq, Repr

/-- The `CheckDCModifiers` interface (`check-degree-of-success.ts`, lines
14-20): five optional fields.  Each field holds a string; the TypeScript
type restricts it to the four `CheckDCStrings`, but at runtime any string
can appear, so the embedding uses `String` and recognition is handled by
the `ADJUSTMENTS` lookup, exactly as in the source. -/
structure CheckDCModifiers where
  all : Option String := none
  criticalFailure : Option String := none
  failure : Option String := none
  success : Option String := none
  criticalSuccess : Option String := none
deriving DecidableEq, Repr

/-- Field lookup `modifiers[degree]` for the loop in `getDegreeAdjustment`. -/
def CheckDCModifiers.get (m : CheckDCModifiers) : Selector → Option String
  | .all => m.all
  | .criticalFailure => m.criticalFailure
  | .failure => m.failure
  | .success => m.success
  | .criticalSuccess => m.criticalSuccess

/-- The `PREFIXES` table (`check-degree-of-success.ts`, lines 36-42):
`all ↦ -1`, the other keys map to the numeric value of their degree. -/
def PREFIXES : Selector → Int
  | .all => -1
  | .criticalFailure => DegreeOfSuccess.CRITICAL_FAILURE.toVal
  | .failure => DegreeOfSuccess.FAILURE.toVal
  | .success => DegreeOfSuccess.SUCCESS.toVal
  | .criticalSuccess => DegreeOfSuccess.CRITICAL_SUCCESS.toVal

/-- The `ADJUSTMENTS` table (`check-degree-of-success.ts`, lines 44-49).
A TypeScript record lookup with an out-of-domain key yields `undefined`,
modelled as `none`. -/
def ADJUSTMENTS : String → Option DegreeAdjustment := fun s =>
  if s = "two-degrees-better" then some DegreeAdjustment.INCREASE_BY_TWO
  else if s = "one-degree-better" then some DegreeAdjustment.INCREASE
  else if s = "one-degree-worse" then some DegreeAdjustment.LOWER
  else if s = "two-degrees-worse" then some DegreeAdjustment.LOWER_BY_TWO
  else none

/-- The iteration order of the `for` loop in `getDegreeAdjustment`
(`check-degree-of-success.ts`, line 76). -/
def selectorOrder : List Selector :=
  [Selector.all, Selector.criticalFailure, Selector.failure, Selector.success,
    Selector.criticalSuccess]

/-- The body of the `for` loop of `getDegreeAdjustment`
(`check-degree-of-success.ts`, lines 76-94), as a recursion over the
remaining selectors.  `if (!checkDC) continue` skips an absent field and
also the empty string (the only falsy string).  When a candidate passes
the boundary guard and matches, the source returns `ADJUSTMENTS[checkDC]`,
which is `undefined` (`none`) for an unrecognized string. -/
def getDegreeAdjustmentGo (value : DegreeOfSuccess) (modifiers : CheckDCModifiers) :
    List Selector → Option DegreeAdjustment
  | [] => none
  | degree :: rest =>
    match modifiers.get degree with
    | none => getDegreeAdjustmentGo value modifiers rest
    | some checkDC =>
      if checkDC = "" then getDegreeAdjustmentGo value modifiers rest
      else
        let condition := PREFIXES degree
        let adjustment := ADJUSTMENTS checkDC
        if (value = DegreeOfSuccess.CRITICAL_SUCCESS ∧ adjustment = some DegreeAdjustment.INCREASE)
            ∨ (value = DegreeOfSuccess.CRITICAL_FAILURE ∧ adjustment = some DegreeAdjustment.LOWER)
        then getDegreeAdjustmentGo value modifiers rest
        else if condition = PREFIXES Selector.all then adjustment
        else if value.toVal = condition then adjustment
        else getDegreeAdjustmentGo value modifiers rest

/-- `getDegreeAdjustment` (`check-degree-of-success.ts`, lines 75-96). -/
def getDegreeAdjustment (value : DegreeOfSuccess) (modifiers : CheckDCModifiers) :
    Option DegreeAdjustment :=
  getDegreeAdjustmentGo value modifiers selectorOrder

/-- Modelled from the spec: degree shifts are integer addition over the
enumeration's underlying ordinal with explicit clamping to the bounds 0..3
(`adjustDegreeOfSuccess` lives in the `degree-of-success` module, not among
the given sources). -/
def adjustVal (v step : Int) : Int := max 0 (min 3 (v + step))

/-- Conversion of a clamped ordinal back to the enumeration. -/
def DegreeOfSuccess.ofVal (v : Int) : DegreeOfSuccess :=
  if v ≤ 0 then .CRITICAL_FAILURE
  else if v = 1 then .FAILURE
  else if v = 2 then .SUCCESS
  else .CRITICAL_SUCCESS

/-- Modelled from the spec: `adjustDegreeOfSuccess` from the
`degree-of-success` module (not among the given sources) shifts a degree by
the adjustment's step count, saturating at the enumeration bounds. -/
def adjustDegreeOfSuccess (adjustment : DegreeAdjustment) (value : DegreeOfSuccess) :
    DegreeOfSuccess :=
  DegreeOfSuccess.ofVal (adjustVal value.toVal adjustment.step)

/-- Result triple of `getDegreeOfSuccess` (`check-degree-of-success.ts`,
lines 57, 68-72). -/
structure DegreeOfSuccessResult where
  unadjusted : DegreeOfSuccess
  value : DegreeOfSuccess
  degreeAdjustment : Option DegreeAdjustment
deriving DecidableEq, Repr

/-- The adjustment stage of `getDegreeOfSuccess`
(`check-degree-of-success.ts`, lines 62-72), with `unadjusted` abstract:
the upstream classification `calculateDegreeOfSuccess` is computed by the
`degree-of-success` module from the die roll and DC before this stage
runs. -/
def resolveDegreeOfSuccess (unadjusted : DegreeOfSuccess) (modifiers : CheckDCModifiers) :
    DegreeOfSuccessResult :=
  let degreeAdjustment := getDegreeAdjustment unadjusted modifiers
  match degreeAdjustment with
  | some adj =>
    { unadjusted := unadjusted
      value := adjustDegreeOfSuccess adj unadjusted
      degreeAdjustment := some adj }
  | none =>
    { unadjusted := unadjusted
      value := unadjusted
      degreeAdjustment := none }

/-- The degree a non-`all` selector key stands for (spec wording: "any other
key matches exactly when it equals the unadjusted degree"). -/
def Selector.degree? : Selector → Option DegreeOfSuccess
  | .all => none
  | .criticalFailure => some .CRITICAL_FAILURE
  | .failure => some .FAILURE
  | .success => some .SUCCESS
  | .criticalSuccess => some .CRITICAL_SUCCESS

/-- Spec-side boundary guard: "do not select `INCREASE` when `unadjusted ==
CRITICAL_SUCCESS` and do not select `LOWER` when `unadjusted ==
CRITICAL_FAILURE`". -/
def specSkipped (u : DegreeOfSuccess) (a : DegreeAdjustment) : Bool :=
  (u == DegreeOfSuccess.CRITICAL_SUCCESS && a == DegreeAdjustment.INCREASE)
    || (u == DegreeOfSuccess.CRITICAL_FAILURE && a == DegreeAdjustment.LOWER)

/-- Spec-side match: "A candidate matches if its key is `all` (unconditional
match) or if its key equals `unadjusted`". -/
def specMatches (u : DegreeOfSuccess) (d : Selector) : Bool :=
  d == Selector.all || d.degree? == some u

/-- Spec-side candidacy: the key is present, its direction string resolves
to an adjustment, the boundary guard does not skip it, and it matches. -/
def specCandidate (u : DegreeOfSuccess) (m : CheckDCModifiers) (d : Selector) : Bool :=
  match m.get d with
  | none => false
  | some s =>
    match ADJUSTMENTS s with
    | none => false
    | some a => !specSkipped u a && specMatches u d

/-- Spec-side selection, following the spec's words for the refinement
claim: "First matching, non-skipped candidate in priority order wins and
resolution stops", returning that candidate's adjustment. -/
def specSelected (u : DegreeOfSuccess) (m : CheckDCModifiers) : Option DegreeAdjustment :=
  (selectorOrder.find? (specCandidate u m)).bind fun d => (m.get d).bind ADJUSTMENTS

/-- A modifiers map is recognized when every present field holds one of the
four `CheckDCStrings` — exactly what the TypeScript type system guarantees
for well-typed callers. -/
def CheckDCModifiers.recognized (m : CheckDCModifiers) : Bool :=
  selectorOrder.all fun d =>
    match m.get d with
    | none => true
    | some s => (ADJUSTMENTS s).isSome

/-- Example map: a single `failure` entry. -/
def mOneBetterOnFail : CheckDCModifiers := { failure := some "one-degree-better" }

/-- Example map: a double-step increase keyed on `criticalSuccess`. -/
def mIncTwoOnCS : CheckDCModifiers := { criticalSuccess := some "two-degrees-better" }

/-- Example map: a double-step decrease keyed on `criticalFailure`. -/
def mLowTwoOnCF : CheckDCModifiers := { criticalFailure := some "two-degrees-worse" }

/-- Example map: `all` holds a single-step increase (skipped at
`CRITICAL_SUCCESS`) and `criticalSuccess` holds a double-step decrease. -/
def mSkipThenLower : CheckDCModifiers :=
  { all := some "one-degree-better", criticalSuccess := some "two-degrees-worse" }

/-- Example map: `all` holds a string outside the four recognized values. -/
def mBogusAll : CheckDCModifiers := { all := some "three-degrees-better" }

/-- Example map: an unrecognized string on `all` ahead of a valid `failure`
entry. -/
def mBogusAllValidLower : CheckDCModifiers :=
  { all := some "three-degrees-better", failure := some "one-degree-better" }

/-! ### JavaScript value model for the die-value expression

`getDegreeOfSuccess` computes `dieValue: Number(roll.terms[0].total) ?? 0`
(`check-degree-of-success.ts`, line 59).  The relevant JavaScript semantics
are modelled exactly: `Number` maps `undefined` to `NaN` and `null` to `0`
and is the identity on numbers, and `??` takes its right operand exactly
when the left one is nullish (`undefined` or `null`). -/

/-- A JavaScript number: either `NaN` or an ordinary numeric value (die
totals are integers, so the non-`NaN` payload is an `Int`). -/
inductive JSNumber where
  | nan
  | num (v : Int)
deriving DecidableEq, Repr

/-- The JavaScript values that can reach the `Number(...)` coercion on line
59: a missing total (`undefined`), `null`, or a number. -/
inductive JSValue where
  | undef
  | null
  | number (x : JSNumber)
deriving DecidableEq, Repr

/-- The JavaScript `Number(...)` coercion on the modelled values:
`Number(undefined) = NaN`, `Number(null) = 0`, identity on numbers. -/
def jsToNumber : JSValue → JSNumber
  | .undef => .nan
  | .null => .num 0
  | .number x => x

/-- JavaScript nullishness: only `undefined` and `null` are nullish. -/
def isNullish : JSValue → Bool
  | .undef => true
  | .null => true
  | .number _ => false

/-- The JavaScript `??` operator: the right operand is used exactly when the
left one is nullish. -/
def nullishCoalesce (a b : JSValue) : JSValue :=
  if isNullish a then b else a

/-- The die-value expression `Number(roll.terms[0].total) ?? 0`
(`check-degree-of-success.ts`, line 59), as a function of the first term's
`total`. -/
def dieValue (total : JSValue) : JSValue :=
  nullishCoalesce (JSValue.number (jsToNumber total)) (JSValue.number (JSNumber.num 0))

/-! ### Modifier stacking

`applyStackingRules` is imported by `damage/dialog.ts` from
`@actor/modifiers.ts`, which is not among the given sources; the resolver
itself is therefore modelled from the spec (§4.2).  The dialog-side code —
the persistent/non-persistent partition, the checkbox listener and
`getData` — is embedded from `damage/dialog.ts`. -/

/-- Modelled from the spec: the kind tag of a modifier, `bonus`, `penalty`
or `untyped`. -/
inductive ModifierKind where
  | bonus
  | penalty
  | untyped
deriving DecidableEq, Repr

/-- Modelled from the spec (§3): a modifier with label, numeric value,
kind, optional subtype, resolver-owned `enabled`, caller-owned `ignored`
(the spec's `ignoredByUser`; the source field name is `ignored`),
critical-only flag, the `hideIfDisabled` display flag read by the dialog's
`getData`, and the damage category used as the partition key
(`"persistent"` vs anything else). -/
structure Modifier where
  label : String
  modifier : Int
  kind : ModifierKind
  subtype : Option String
  enabled : Bool
  ignored : Bool
  critical : Option Bool
  hideIfDisabled : Bool
  category : Option String
deriving DecidableEq, Repr

/-- Modelled from the spec: the ranking value within a stacking group —
"the numerically highest value" for bonuses, "numerically most negative
(largest magnitude penalty)" for penalties, i.e. the negated value. -/
def score (k : ModifierKind) (m : Modifier) : Int :=
  match k with
  | .penalty => -m.modifier
  | _ => m.modifier

/-- The position-tagged, non-ignored members of the `(k, st)` stacking
group, with their ranking scores, positions counted from `n`. -/
def stackingCandidatesFrom (k : ModifierKind) (st : Option String) :
    Nat → List Modifier → List (Nat × Int)
  | _, [] => []
  | i, m :: rest =>
    if m.kind = k ∧ m.subtype = st ∧ m.ignored = false
    then (i, score k m) :: stackingCandidatesFrom k st (i + 1) rest
    else stackingCandidatesFrom k st (i + 1) rest

/-- The non-ignored members of the `(k, st)` stacking group of `ms`, with
their positions and ranking scores. -/
def stackingCandidates (ms : List Modifier) (k : ModifierKind) (st : Option String) :
    List (Nat × Int) :=
  stackingCandidatesFrom k st 0 ms

/-- The position of the first candidate with the maximal score (ties
resolve by stable input order, spec §4.2 item 6). -/
def bestIdx : List (Nat × Int) → Option (Nat × Int)
  | [] => none
  | p :: rest =>
    match bestIdx rest with
    | none => some p
    | some q => if p.2 < q.2 then some q else some p

/-- Modelled from the spec (§4.2): the `enabled` verdict for the modifier
at position `i` of the universe `ms`.  A manually ignored modifier is
forced disabled; an untyped modifier always stacks; otherwise the modifier
is enabled exactly when it is the best-ranked non-ignored member of its
`(kind, subtype)` group. -/
def resolveOne (ms : List Modifier) (i : Nat) (m : Modifier) : Modifier :=
  if m.ignored then { m with enabled := false }
  else if m.kind = ModifierKind.untyped then { m with enabled := true }
  else
    { m with enabled :=
        (bestIdx (stackingCandidates ms m.kind m.subtype)).map Prod.fst == some i }

/-- Recursion over the spine: resolve each position of `l` (positions
counted from `n`) against the whole universe `base`. -/
def applyStackingRulesFrom (base : List Modifier) : Nat → List Modifier → List Modifier
  | _, [] => []
  | i, m :: rest => resolveOne base i m :: applyStackingRulesFrom base (i + 1) rest

/-- Modelled from the spec: `applyStackingRules` from `@actor/modifiers.ts`
(not among the given sources) decides, in place, which modifiers of one
stacking universe are enabled; here as a pure list transformation that
rewrites only the `enabled` flags. -/
def applyStackingRules (ms : List Modifier) : List Modifier :=
  applyStackingRulesFrom ms 0 ms

/-- The partition predicate of the dialog's `#applyStackingRules`
(`damage/dialog.ts`, lines 328-332): `m.category === "persistent"`. -/
def isPersistent (m : Modifier) : Bool :=
  m.category == some "persistent"

/-- Reassembly of the two separately stacked sublists into the original
positions: the TypeScript resolver mutates the shared modifier objects in
place, so the results of stacking each filtered sublist land back at the
original positions of its members.  `ts` supplies the resolved modifiers
with `p` true, `fs` those with `p` false, in order. -/
def mergeByPred (p : Modifier → Bool) : List Modifier → List Modifier → List Modifier → List Modifier
  | [], _, _ => []
  | m :: rest, ts, fs =>
    if p m then
      match ts with
      | [] => []
      | t :: ts2 => t :: mergeByPred p rest ts2 fs
    else
      match fs with
      | [] => []
      | f :: fs2 => f :: mergeByPred p rest ts fs2

/-- `#applyStackingRules` of `DamageModifierDialog` (`damage/dialog.ts`,
lines 328-332): apply stacking rules separately to the non-persistent and
the persistent modifiers; each modifier's new `enabled` flag is the one its
own partition's run computed. -/
def dialogApplyStackingRules (ms : List Modifier) : List Modifier :=
  mergeByPred isPersistent ms
    (applyStackingRules (ms.filter isPersistent))
    (applyStackingRules (ms.filter fun m => !isPersistent m))

/-! ### The damage modifier dialog state -/

/-- The positions (counted from `n`) of the enabled modifiers. -/
def enabledPositionsFrom : Nat → List Modifier → List Nat
  | _, [] => []
  | i, m :: rest =>
    if m.enabled then i :: enabledPositionsFrom (i + 1) rest
    else enabledPositionsFrom (i + 1) rest

/-- The dialog state relevant to the claims: the current
`formulaData.modifiers` list and the `#originallyEnabled` set
(`damage/dialog.ts`, lines 38-39, 49).  JavaScript `Set` membership is
reference identity; modifiers are only ever appended and never removed, so
an object reference is modelled by its stable position in the list. -/
structure DamageModifierDialog where
  modifiers : List Modifier
  originallyEnabled : List Nat
deriving DecidableEq, Repr

/-- The constructor (`damage/dialog.ts`, lines 41-50):
`#originallyEnabled = new Set(formulaData.modifiers.filter(m => m.enabled))`. -/
def mkDialog (ms : List Modifier) : DamageModifierDialog :=
  { modifiers := ms, originallyEnabled := enabledPositionsFrom 0 ms }

/-- `modifiers[i].ignored = b`, leaving the rest of the list unchanged. -/
def setIgnoredAt : List Modifier → Nat → Bool → List Modifier
  | [], _, _ => []
  | m :: rest, 0, b => { m with ignored := b } :: rest
  | m :: rest, Nat.succ i, b => m :: setIgnoredAt rest i b

/-- The checkbox listener for a modifier row (`damage/dialog.ts`, lines
187-201): set `modifiers[modIndex].ignored = !checkbox.checked`, then
re-run the partitioned stacking rules. -/
def toggleModifier (d : DamageModifierDialog) (i : Nat) (checked : Bool) :
    DamageModifierDialog :=
  { d with modifiers := dialogApplyStackingRules (setIgnoredAt d.modifiers i (!checked)) }

/-- The add-modifier button (`damage/dialog.ts`, lines 218-257): push a new
modifier, then re-run the partitioned stacking rules. -/
def addModifier (d : DamageModifierDialog) (m : Modifier) : DamageModifierDialog :=
  { d with modifiers := dialogApplyStackingRules (d.modifiers ++ [m]) }

/-- The `hideIfDisabled` values reported by `getData` (`damage/dialog.ts`,
line 116): `!this.#originallyEnabled.has(m) && m.hideIfDisabled`, per
position counted from `n`. -/
def hideFlagsFrom (orig : List Nat) : Nat → List Modifier → List Bool
  | _, [] => []
  | i, m :: rest => (!(orig.contains i) && m.hideIfDisabled) :: hideFlagsFrom orig (i + 1) rest

/-- The `hideIfDisabled` column of `getData`'s modifier rows. -/
def getDataHideIfDisabled (d : DamageModifierDialog) : List Bool :=
  hideFlagsFrom d.originallyEnabled 0 d.modifiers

/-- One user interaction on the dialog that changes its modifier list. -/
inductive DialogStep : DamageModifierDialog → DamageModifierDialog → Prop where
  | toggle (d : DamageModifierDialog) (i : Nat) (checked : Bool) :
      DialogStep d (toggleModifier d i checked)
  | add (d : DamageModifierDialog) (m : Modifier) :
      DialogStep d (addModifier d m)

/-- The dialog states reachable from a given state by user interactions. -/
inductive DialogReachable : DamageModifierDialog → DamageModifierDialog → Prop where
  | refl (d : DamageModifierDialog) : DialogReachable d d
  | step (d₁ d₂ d₃ : DamageModifierDialog) :
      DialogReachable d₁ d₂ → DialogStep d₂ d₃ → DialogReachable d₁ d₃

/-- Modifiers that agree on every field except possibly `enabled` — the
stacking resolver's output is related to its input this way. -/
def EnabledOnlyDiff (a b : Modifier) : Prop :=
  a.label = b.label ∧ a.modifier = b.modifier ∧ a.kind = b.kind ∧ a.subtype = b.subtype
    ∧ a.ignored = b.ignored ∧ a.critical = b.critical
    ∧ a.hideIfDisabled = b.hideIfDisabled ∧ a.category = b.category

/-- Example list for scenario D: two circumstance bonuses, +2 and +4. -/
def msTwoBonuses : List Modifier :=
  [{ label := "a", modifier := 2, kind := ModifierKind.bonus,
     subtype := some "circumstance", enabled := true, ignored := false,
     critical := none, hideIfDisabled := false, category := none },
   { label := "b", modifier := 4, kind := ModifierKind.bonus,
     subtype := some "circumstance", enabled := true, ignored := false,
     critical := none, hideIfDisabled := false, category := none }]

/-- Example list for scenario E: an ignored +3 circumstance bonus ahead of
a non-ignored +2 circumstance bonus. -/
def msIgnoredBest : List Modifier :=
  [{ label := "a", modifier := 3, kind := ModifierKind.bonus,
     subtype := some "circumstance", enabled := true, ignored := true,
     critical := none, hideIfDisabled := false, category := none },
   { label := "b", modifier := 2, kind := ModifierKind.bonus,
     subtype := some "circumstance", enabled := false, ignored := false,
     critical := none, hideIfDisabled := false, category := none }]

/-- Example list for the dialog claim: one enabled modifier with
`hideIfDisabled` set. -/
def msHideOne : List Modifier :=
  [{ label := "a", modifier := 2, kind := ModifierKind.bonus,
     subtype := some "circumstance", enabled := true, ignored := false,
     critical := none, hideIfDisabled := true, category := none }]

/-- The dialog state after the user unchecks the only modifier of
`msHideOne`. -/
def dToggled : DamageModifierDialog := toggleModifier (mkDialog msHideOne) 0 false

/-! ## Lemmas about the adjustment selector -/

theorem prefix_eq_all_iff (d : Selector) : PREFIXES d = PREFIXES Selector.all ↔ d = Selector.all := by
  cases d <;> decide

theorem toVal_eq_prefix_iff (u : DegreeOfSuccess) (d : Selector) :
    u.toVal = PREFIXES d ↔ d.degree? = some u := by
  cases u <;> cases d <;> decide

theorem guard_iff_specSkipped (u : DegreeOfSuccess) (a : DegreeAdjustment) :
    ((u = DegreeOfSuccess.CRITICAL_SUCCESS ∧ some a = some DegreeAdjustment.INCREASE)
        ∨ (u = DegreeOfSuccess.CRITICAL_FAILURE ∧ some a = some DegreeAdjustment.LOWER))
      ↔ specSkipped u a = true := by
  cases u <;> cases a <;> decide

theorem go_cons_none (u : DegreeOfSuccess) (m : CheckDCModifiers) (d : Selector)
    (rest : List Selector) (h : m.get d = none) :
    getDegreeAdjustmentGo u m (d :: rest) = getDegreeAdjustmentGo u m rest := by
  simp only [getDegreeAdjustmentGo, h]

theorem go_cons_some (u : DegreeOfSuccess) (m : CheckDCModifiers) (d : Selector)
    (rest : List Selector) (s : String) (h : m.get d = some s) :
    getDegreeAdjustmentGo u m (d :: rest)
      = if s = "" then getDegreeAdjustmentGo u m rest
        else
          if (u = DegreeOfSuccess.CRITICAL_SUCCESS
                ∧ ADJUSTMENTS s = some DegreeAdjustment.INCREASE)
              ∨ (u = DegreeOfSuccess.CRITICAL_FAILURE
                ∧ ADJUSTMENTS s = some DegreeAdjustment.LOWER)
          then getDegreeAdjustmentGo u m rest
          else if PREFIXES d = PREFIXES Selector.all then ADJUSTMENTS s
          else if u.toVal = PREFIXES d then ADJUSTMENTS s
          else getDegreeAdjustmentGo u m rest := by
  simp only [getDegreeAdjustmentGo, h]

theorem getDegreeAdjustmentGo_eq_find (u : DegreeOfSuccess) (m : CheckDCModifiers) :
    ∀ sels : List Selector,
      (∀ d ∈ sels, ∀ s, m.get d = some s → (ADJUSTMENTS s).isSome) →
      getDegreeAdjustmentGo u m sels
        = (sels.find? (specCandidate u m)).bind (fun d => (m.get d).bind ADJUSTMENTS)
  | [], _ => rfl
  | d :: rest, h => by
    have ih := getDegreeAdjustmentGo_eq_find u m rest fun e he => h e (List.mem_cons_of_mem d he)
    cases hm : m.get d with
    | none =>
      have hc : ¬ specCandidate u m d = true := by simp [specCandidate, hm]
      rw [List.find?_cons_of_neg _ hc, go_cons_none u m d rest hm]
      exact ih
    | some s =>
      have hsome := h d (List.mem_cons_self d rest) s hm
      obtain ⟨a, ha⟩ := Option.isSome_iff_exists.mp hsome
      have hne : ¬ s = "" := by
        intro e
        rw [e] at ha
        simp [ADJUSTMENTS] at ha
      have hcand : specCandidate u m d = (!specSkipped u a && specMatches u d) := by
        simp [specCandidate, hm, ha]
      rw [go_cons_some u m d rest s hm, if_neg hne]
      by_cases hskip : specSkipped u a = true
      · have hg : (u = DegreeOfSuccess.CRITICAL_SUCCESS
              ∧ ADJUSTMENTS s = some DegreeAdjustment.INCREASE)
            ∨ (u = DegreeOfSuccess.CRITICAL_FAILURE
              ∧ ADJUSTMENTS s = some DegreeAdjustment.LOWER) := by
          rw [ha]
          exact (guard_iff_specSkipped u a).mpr hskip
        rw [if_pos hg]
        have hc : ¬ specCandidate u m d = true := by simp [hcand, hskip]
        rw [List.find?_cons_of_neg _ hc]
        exact ih
      · have hg : ¬ ((u = DegreeOfSuccess.CRITICAL_SUCCESS
              ∧ ADJUSTMENTS s = some DegreeAdjustment.INCREASE)
            ∨ (u = DegreeOfSuccess.CRITICAL_FAILURE
              ∧ ADJUSTMENTS s = some DegreeAdjustment.LOWER)) := by
          rw [ha]
          intro hcon
          exact hskip ((guard_iff_specSkipped u a).mp hcon)
        rw [if_neg hg]
        by_cases hall : d = Selector.all
        · subst hall
          rw [if_pos rfl]
          have hcd : specCandidate u m Selector.all = true := by
            rw [hcand]
            simp [specMatches, hskip]
          rw [List.find?_cons_of_pos _ hcd]
          simp [hm, ha]
        · rw [if_neg fun e => hall ((prefix_eq_all_iff d).mp e)]
          by_cases hmatch : u.toVal = PREFIXES d
          · rw [if_pos hmatch]
            have hdeg : d.degree? = some u := (toVal_eq_prefix_iff u d).mp hmatch
            have hcd : specCandidate u m d = true := by
              rw [hcand]
              simp [specMatches, hdeg, hskip]
            rw [List.find?_cons_of_pos _ hcd]
            simp [hm, ha]
          · rw [if_neg hmatch]
            have hcd : ¬ specCandidate u m d = true := by
              rw [hcand]
              have h1 : ¬ d.degree? = some u := fun e => hmatch ((toVal_eq_prefix_iff u d).mpr e)
              simp [specMatches, hall, h1]
            rw [List.find?_cons_of_neg _ hcd]
            exact ih

theorem getDegreeAdjustment_eq_specSelected (u : DegreeOfSuccess) (m : CheckDCModifiers)
    (h : m.recognized = true) : getDegreeAdjustment u m = specSelected u m := by
  apply getDegreeAdjustmentGo_eq_find
  intro d hd s hs
  have hall := List.all_eq_true.mp h d hd
  rw [hs] at hall
  simpa using hall

theorem go_cs_never_increase (m : CheckDCModifiers) :
    ∀ sels : List Selector,
      getDegreeAdjustmentGo DegreeOfSuccess.CRITICAL_SUCCESS m sels
        ≠ some DegreeAdjustment.INCREASE
  | [] => by simp [getDegreeAdjustmentGo]
  | d :: rest => by
    have ih := go_cs_never_increase m rest
    cases hm : m.get d with
    | none =>
      rw [go_cons_none _ m d rest hm]
      exact ih
    | some s =>
      by_cases hne : s = ""
      · rw [go_cons_some _ m d rest s hm, if_pos hne]
        exact ih
      · rw [go_cons_some _ m d rest s hm, if_neg hne]
        by_cases hg : (DegreeOfSuccess.CRITICAL_SUCCESS = DegreeOfSuccess.CRITICAL_SUCCESS
              ∧ ADJUSTMENTS s = some DegreeAdjustment.INCREASE)
            ∨ (DegreeOfSuccess.CRITICAL_SUCCESS = DegreeOfSuccess.CRITICAL_FAILURE
              ∧ ADJUSTMENTS s = some DegreeAdjustment.LOWER)
        · rw [if_pos hg]
          exact ih
        · rw [if_neg hg]
          have hna : ADJUSTMENTS s ≠ some DegreeAdjustment.INCREASE :=
            fun e => hg (Or.inl ⟨rfl, e⟩)
          by_cases h1 : PREFIXES d = PREFIXES Selector.all
          · rw [if_pos h1]
            exact hna
          · rw [if_neg h1]
            by_cases h2 : DegreeOfSuccess.CRITICAL_SUCCESS.toVal = PREFIXES d
            · rw [if_pos h2]
              exact hna
            · rw [if_neg h2]
              exact ih

theorem go_cf_never_lower (m : CheckDCModifiers) :
    ∀ sels : List Selector,
      getDegreeAdjustmentGo DegreeOfSuccess.CRITICAL_FAILURE m sels
        ≠ some DegreeAdjustment.LOWER
  | [] => by simp [getDegreeAdjustmentGo]
  | d :: rest => by
    have ih := go_cf_never_lower m rest
    cases hm : m.get d with
    | none =>
      rw [go_cons_none _ m d rest hm]
      exact ih
    | some s =>
      by_cases hne : s = ""
      · rw [go_cons_some _ m d rest s hm, if_pos hne]
        exact ih
      · rw [go_cons_some _ m d rest s hm, if_neg hne]
        by_cases hg : (DegreeOfSuccess.CRITICAL_FAILURE = DegreeOfSuccess.CRITICAL_SUCCESS
              ∧ ADJUSTMENTS s = some DegreeAdjustment.INCREASE)
            ∨ (DegreeOfSuccess.CRITICAL_FAILURE = DegreeOfSuccess.CRITICAL_FAILURE
              ∧ ADJUSTMENTS s = some DegreeAdjustment.LOWER)
        · rw [if_pos hg]
          exact ih
        · rw [if_neg hg]
          have hna : ADJUSTMENTS s ≠ some DegreeAdjustment.LOWER :=
            fun e => hg (Or.inr ⟨rfl, e⟩)
          by_cases h1 : PREFIXES d = PREFIXES Selector.all
          · rw [if_pos h1]
            exact hna
          · rw [if_neg h1]
            by_cases h2 : DegreeOfSuccess.CRITICAL_FAILURE.toVal = PREFIXES d
            · rw [if_pos h2]
              exact hna
            · rw [if_neg h2]
              exact ih

/-! ## Claim theorems for the outcome resolver -/

/-- Claim C1: for every unadjusted degree and every `CheckDCModifiers` map
(well-typed, i.e. every present field holds one of the four recognized
strings), the resolution selects at most one adjustment, namely the one of
the first selector in the fixed priority order `all, criticalFailure,
failure, success, criticalSuccess` that is present, not skipped by the
boundary guard, and matches (`all` unconditionally, any other key exactly
when it equals the unadjusted degree); if no candidate is selected the
final degree equals the unadjusted degree. -/
theorem getDegreeAdjustment_selects_first_candidate (u : DegreeOfSuccess)
    (m : CheckDCModifiers) (h : m.recognized = true) :
    getDegreeAdjustment u m = specSelected u m ∧
    (getDegreeAdjustment u m = none →
      resolveDegreeOfSuccess u m = ⟨u, u, none⟩) := by
  refine ⟨getDegreeAdjustment_eq_specSelected u m h, fun hn => ?_⟩
  simp [resolveDegreeOfSuccess, hn]

/-- Witness for C1 at the concrete map `{ failure: "one-degree-better" }`. -/
theorem getDegreeAdjustment_selects_first_candidate_witness :
    getDegreeAdjustment DegreeOfSuccess.FAILURE mOneBetterOnFail
        = specSelected DegreeOfSuccess.FAILURE mOneBetterOnFail ∧
    (getDegreeAdjustment DegreeOfSuccess.FAILURE mOneBetterOnFail = none →
      resolveDegreeOfSuccess DegreeOfSuccess.FAILURE mOneBetterOnFail
        = ⟨DegreeOfSuccess.FAILURE, DegreeOfSuccess.FAILURE, none⟩) :=
  getDegreeAdjustment_selects_first_candidate DegreeOfSuccess.FAILURE mOneBetterOnFail
    (by decide)

/-- Claim C2: the boundary guard never lets the single-step `INCREASE` be
selected at `CRITICAL_SUCCESS` nor the single-step `LOWER` at
`CRITICAL_FAILURE`, for any modifiers map; the double-step variants remain
selectable in exactly those states; and a skipped candidate does not stop
the iteration — at `CRITICAL_SUCCESS` with `all: "one-degree-better"`
skipped, the lower-priority `criticalSuccess: "two-degrees-worse"` entry is
still selected. -/
theorem boundary_guard_blocks_single_step_only :
    (∀ m : CheckDCModifiers,
        getDegreeAdjustment DegreeOfSuccess.CRITICAL_SUCCESS m
          ≠ some DegreeAdjustment.INCREASE) ∧
    (∀ m : CheckDCModifiers,
        getDegreeAdjustment DegreeOfSuccess.CRITICAL_FAILURE m
          ≠ some DegreeAdjustment.LOWER) ∧
    getDegreeAdjustment DegreeOfSuccess.CRITICAL_SUCCESS mIncTwoOnCS
        = some DegreeAdjustment.INCREASE_BY_TWO ∧
    getDegreeAdjustment DegreeOfSuccess.CRITICAL_FAILURE mLowTwoOnCF
        = some DegreeAdjustment.LOWER_BY_TWO ∧
    getDegreeAdjustment DegreeOfSuccess.CRITICAL_SUCCESS mSkipThenLower
        = some DegreeAdjustment.LOWER_BY_TWO :=
  ⟨fun m => go_cs_never_increase m selectorOrder,
   fun m => go_cf_never_lower m selectorOrder,
   by decide, by decide, by decide⟩

/-- Witness for C2 at the concrete map of `mSkipThenLower`. -/
theorem boundary_guard_blocks_single_step_only_witness :
    getDegreeAdjustment DegreeOfSuccess.CRITICAL_SUCCESS mSkipThenLower
      ≠ some DegreeAdjustment.INCREASE :=
  boundary_guard_blocks_single_step_only.1 mSkipThenLower

/-- Counterexample to claim C3 as stated: at the concrete map
`{ all: "three-degrees-better" }` the unrecognized adjustment-direction
string does not make resolution fail — there is no error channel at all —
and the entry is silently treated as a no-op: the result is exactly the
result for an empty modifiers map. -/
theorem unrecognized_adjustment_fail_fast_cex :
    ADJUSTMENTS "three-degrees-better" = none ∧
    resolveDegreeOfSuccess DegreeOfSuccess.SUCCESS mBogusAll
        = ⟨DegreeOfSuccess.SUCCESS, DegreeOfSuccess.SUCCESS, none⟩ ∧
    resolveDegreeOfSuccess DegreeOfSuccess.SUCCESS mBogusAll
        = resolveDegreeOfSuccess DegreeOfSuccess.SUCCESS {} :=
  ⟨by decide, by decide, by decide⟩

/-- Claim C3 (amended): a modifiers map whose `all` field holds an
unrecognized (and non-empty, hence truthy) adjustment-direction string is
silently treated as selecting no adjustment: resolution returns no
adjustment — even suppressing lower-priority recognized entries — and the
final degree equals the unadjusted degree; no error is raised. -/
theorem unrecognized_adjustment_silent_noop (u : DegreeOfSuccess)
    (m : CheckDCModifiers) (s : String) (h1 : m.all = some s)
    (h2 : ADJUSTMENTS s = none) (h3 : ¬ s = "") :
    getDegreeAdjustment u m = none ∧ (resolveDegreeOfSuccess u m).value = u := by
  have hget : m.get Selector.all = some s := h1
  have hga : getDegreeAdjustment u m = none := by
    rw [getDegreeAdjustment, selectorOrder,
      go_cons_some u m Selector.all _ s hget, if_neg h3, h2, if_neg ?hg, if_pos rfl]
    case hg =>
      rintro (⟨_, he⟩ | ⟨_, he⟩) <;> exact Option.noConfusion he
  exact ⟨hga, by simp [resolveDegreeOfSuccess, hga]⟩

/-- Witness for the amended C3: the unrecognized string on `all` even
suppresses the valid `failure: "one-degree-better"` entry. -/
theorem unrecognized_adjustment_silent_noop_witness :
    getDegreeAdjustment DegreeOfSuccess.FAILURE mBogusAllValidLower = none ∧
    (resolveDegreeOfSuccess DegreeOfSuccess.FAILURE mBogusAllValidLower).value
        = DegreeOfSuccess.FAILURE :=
  unrecognized_adjustment_silent_noop DegreeOfSuccess.FAILURE mBogusAllValidLower
    "three-degrees-better" rfl (by decide) (by decide)

/-- Claim C4: for every ordinal in the enumeration range 0..3 and every
adjustment step in {-2,-1,1,2}, the saturating shift stays within the
enumeration range; `adjustDegreeOfSuccess` realizes exactly that clamped
shift on the ordinals; and the final degree of the outcome resolver always
has its ordinal within 0..3. -/
theorem degree_adjustment_saturates (v step : Int) (h0 : 0 ≤ v) (h3 : v ≤ 3)
    (hs : step = -2 ∨ step = -1 ∨ step = 1 ∨ step = 2) :
    (0 ≤ adjustVal v step ∧ adjustVal v step ≤ 3) ∧
    (∀ (a : DegreeAdjustment) (d : DegreeOfSuccess),
        (adjustDegreeOfSuccess a d).toVal = adjustVal d.toVal a.step) ∧
    (∀ (u : DegreeOfSuccess) (m : CheckDCModifiers),
        0 ≤ ((resolveDegreeOfSuccess u m).value).toVal
          ∧ ((resolveDegreeOfSuccess u m).value).toVal ≤ 3) := by
  refine ⟨⟨?_, ?_⟩, ?_, ?_⟩
  · show (0 : Int) ≤ max 0 (min 3 (v + step))
    exact le_max_left 0 _
  · show max 0 (min 3 (v + step)) ≤ (3 : Int)
    exact max_le (by norm_num) (min_le_left 3 _)
  · intro a d
    cases a <;> cases d <;> decide
  · intro u m
    have hb : ∀ d : DegreeOfSuccess, 0 ≤ d.toVal ∧ d.toVal ≤ 3 := fun d => by
      cases d <;> decide
    exact hb _

/-- Witness for C4 at the boundary ordinal 3 with step +2. -/
theorem degree_adjustment_saturates_witness :
    (0 ≤ adjustVal 3 2 ∧ adjustVal 3 2 ≤ 3) ∧
    (∀ (a : DegreeAdjustment) (d : DegreeOfSuccess),
        (adjustDegreeOfSuccess a d).toVal = adjustVal d.toVal a.step) ∧
    (∀ (u : DegreeOfSuccess) (m : CheckDCModifiers),
        0 ≤ ((resolveDegreeOfSuccess u m).value).toVal
          ∧ ((resolveDegreeOfSuccess u m).value).toVal ≤ 3) :=
  degree_adjustment_saturates 3 2 (by decide) (by decide) (by decide)

/-- Claim C10: the `?? 0` fallback in
`dieValue: Number(roll.terms[0].total) ?? 0` is unreachable, because the
result of the `Number` coercion is never nullish; a missing first-term
total therefore yields `NaN`, not the apparent default `0`. -/
theorem dieValue_fallback_unreachable :
    (∀ total : JSValue, dieValue total = JSValue.number (jsToNumber total)) ∧
    dieValue JSValue.undef = JSValue.number JSNumber.nan ∧
    JSNumber.nan ≠ JSNumber.num 0 :=
  ⟨fun _ => rfl, rfl, by decide⟩

/-- Witness for C10: the missing-total case, evaluated. -/
theorem dieValue_fallback_unreachable_witness :
    dieValue JSValue.undef = JSValue.number JSNumber.nan :=
  dieValue_fallback_unreachable.2.1

/-! ## Lemmas about the stacking resolver -/

theorem bestIdx_eq_none : ∀ l : List (Nat × Int), bestIdx l = none → l = []
  | [], _ => rfl
  | p :: rest, h => by
    cases hb : bestIdx rest with
    | none =>
      simp only [bestIdx, hb] at h
      exact Option.noConfusion h
    | some q =>
      simp only [bestIdx, hb] at h
      by_cases hlt : p.2 < q.2
      · rw [if_pos hlt] at h
        exact Option.noConfusion h
      · rw [if_neg hlt] at h
        exact Option.noConfusion h

theorem bestIdx_mem : ∀ (l : List (Nat × Int)) (q : Nat × Int), bestIdx l = some q → q ∈ l
  | [], q => by intro h; cases h
  | p :: rest, q => by
    intro h
    cases hb : bestIdx rest with
    | none =>
      simp only [bestIdx, hb] at h
      injection h with h
      subst h
      exact List.mem_cons_self p rest
    | some r =>
      simp only [bestIdx, hb] at h
      by_cases hlt : p.2 < r.2
      · rw [if_pos hlt] at h
        cases h
        exact List.mem_cons_of_mem p (bestIdx_mem rest q hb)
      · rw [if_neg hlt] at h
        cases h
        exact List.mem_cons_self p rest

theorem bestIdx_le : ∀ (l : List (Nat × Int)) (q : Nat × Int), bestIdx l = some q →
    ∀ r ∈ l, r.2 ≤ q.2
  | [], q => by intro h; cases h
  | p :: rest, q => by
    intro h r hr
    cases hb : bestIdx rest with
    | none =>
      simp only [bestIdx, hb] at h
      injection h with h
      subst h
      have hrest : rest = [] := bestIdx_eq_none rest hb
      subst hrest
      rcases List.mem_cons.mp hr with h1 | h2
      · rw [h1]
      · cases h2
    | some r2 =>
      simp only [bestIdx, hb] at h
      by_cases hlt : p.2 < r2.2
      · rw [if_pos hlt] at h
        cases h
        rcases List.mem_cons.mp hr with h1 | h2
        · rw [h1]; exact le_of_lt hlt
        · exact bestIdx_le rest q hb r h2
      · rw [if_neg hlt] at h
        cases h
        rcases List.mem_cons.mp hr with h1 | h2
        · rw [h1]
        · exact le_trans (bestIdx_le rest r2 hb r h2) (not_lt.mp hlt)

theorem bestIdx_cons_isSome (p : Nat × Int) (l : List (Nat × Int)) :
    (bestIdx (p :: l)).isSome = true := by
  simp only [bestIdx]
  cases bestIdx l with
  | none => rfl
  | some q => by_cases h : p.2 < q.2 <;> simp [h]

theorem mem_stackingCandidatesFrom (k : ModifierKind) (st : Option String) :
    ∀ (l : List Modifier) (n i : Nat) (v : Int),
      (i, v) ∈ stackingCandidatesFrom k st n l
        ↔ ∃ j, ∃ h : j < l.length, i = n + j ∧ l[j].kind = k ∧ l[j].subtype = st
            ∧ l[j].ignored = false ∧ v = score k l[j]
  | [], n, i, v => by
    constructor
    · intro h
      simp [stackingCandidatesFrom] at h
    · rintro ⟨j, hj, -⟩
      exact absurd hj (by simp)
  | m :: rest, n, i, v => by
    have ih := mem_stackingCandidatesFrom k st rest (n + 1) i v
    constructor
    · intro h
      simp only [stackingCandidatesFrom] at h
      by_cases hc : m.kind = k ∧ m.subtype = st ∧ m.ignored = false
      · rw [if_pos hc] at h
        rcases List.mem_cons.mp h with h1 | h2
        · have hi : i = n := congrArg Prod.fst h1
          have hv : v = score k m := congrArg Prod.snd h1
          refine ⟨0, Nat.succ_pos rest.length, by omega, ?_, ?_, ?_, ?_⟩
          · simpa using hc.1
          · simpa using hc.2.1
          · simpa using hc.2.2
          · simpa using hv
        · obtain ⟨j, hj, h3, h4, h5, h6, h7⟩ := ih.mp h2
          refine ⟨j + 1, Nat.succ_lt_succ hj, by omega, by simpa using h4, by simpa using h5,
            by simpa using h6, by simpa using h7⟩
      · rw [if_neg hc] at h
        obtain ⟨j, hj, h3, h4, h5, h6, h7⟩ := ih.mp h
        refine ⟨j + 1, Nat.succ_lt_succ hj, by omega, by simpa using h4, by simpa using h5,
          by simpa using h6, by simpa using h7⟩
    · rintro ⟨j, hj, h3, h4, h5, h6, h7⟩
      simp only [stackingCandidatesFrom]
      cases j with
      | zero =>
        have h4' : m.kind = k := by simpa using h4
        have h5' : m.subtype = st := by simpa using h5
        have h6' : m.ignored = false := by simpa using h6
        rw [if_pos ⟨h4', h5', h6'⟩]
        have hpair : (i, v) = (n, score k m) := by
          have h7' : v = score k m := by simpa using h7
          rw [h3, h7']
          simp
        rw [hpair]
        exact List.mem_cons_self _ _
      | succ j2 =>
        have hj2 : j2 < rest.length := Nat.lt_of_succ_lt_succ hj
        have hmem : (i, v) ∈ stackingCandidatesFrom k st (n + 1) rest := by
          apply ih.mpr
          exact ⟨j2, hj2, by omega, by simpa using h4, by simpa using h5,
            by simpa using h6, by simpa using h7⟩
        by_cases hc : m.kind = k ∧ m.subtype = st ∧ m.ignored = false
        · rw [if_pos hc]
          exact List.mem_cons_of_mem _ hmem
        · rw [if_neg hc]
          exact hmem

theorem length_applyStackingRulesFrom (base : List Modifier) :
    ∀ (n : Nat) (l : List Modifier), (applyStackingRulesFrom base n l).length = l.length
  | _, [] => rfl
  | n, m :: rest => by
    simp only [applyStackingRulesFrom, List.length_cons]
    exact congrArg (· + 1) (length_applyStackingRulesFrom base (n + 1) rest)

theorem length_applyStackingRules (ms : List Modifier) :
    (applyStackingRules ms).length = ms.length :=
  length_applyStackingRulesFrom ms 0 ms

theorem applyStackingRulesFrom_getElem (base : List Modifier) :
    ∀ (n : Nat) (l : List Modifier) (i : Nat) (h : i < l.length)
      (h2 : i < (applyStackingRulesFrom base n l).length),
      (applyStackingRulesFrom base n l)[i] = resolveOne base (n + i) l[i]
  | n, [], i, h, _ => absurd h (by simp)
  | n, m :: rest, 0, h, h2 => by
    simp only [applyStackingRulesFrom, List.getElem_cons_zero, Nat.add_zero]
  | n, m :: rest, i + 1, h, h2 => by
    simp only [applyStackingRulesFrom, List.getElem_cons_succ]
    rw [show n + (i + 1) = (n + 1) + i by omega]
    exact applyStackingRulesFrom_getElem base (n + 1) rest i (Nat.lt_of_succ_lt_succ h)
      (by rw [length_applyStackingRulesFrom]; exact Nat.lt_of_succ_lt_succ h)

theorem applyStackingRules_getElem (ms : List Modifier) (i : Nat) (h : i < ms.length)
    (h2 : i < (applyStackingRules ms).length) :
    (applyStackingRules ms)[i] = resolveOne ms i ms[i] := by
  have hg := applyStackingRulesFrom_getElem ms 0 ms i h h2
  simpa using hg

theorem resolveOne_eq (base : List Modifier) (i : Nat) (m : Modifier) :
    ∃ e, resolveOne base i m = { m with enabled := e } := by
  unfold resolveOne
  by_cases h1 : m.ignored = true
  · rw [if_pos h1]
    exact ⟨false, rfl⟩
  · rw [if_neg h1]
    by_cases h2 : m.kind = ModifierKind.untyped
    · rw [if_pos h2]
      exact ⟨true, rfl⟩
    · rw [if_neg h2]
      exact ⟨_, rfl⟩

theorem enabledOnlyDiff_resolveOne (base : List Modifier) (i : Nat) (m : Modifier) :
    EnabledOnlyDiff (resolveOne base i m) m := by
  obtain ⟨e, he⟩ := resolveOne_eq base i m
  rw [he]
  exact ⟨rfl, rfl, rfl, rfl, rfl, rfl, rfl, rfl⟩

theorem forall₂_applyStackingRulesFrom (base : List Modifier) :
    ∀ (n : Nat) (l : List Modifier),
      List.Forall₂ EnabledOnlyDiff (applyStackingRulesFrom base n l) l
  | _, [] => List.Forall₂.nil
  | n, m :: rest =>
    List.Forall₂.cons (enabledOnlyDiff_resolveOne base n m)
      (forall₂_applyStackingRulesFrom base (n + 1) rest)

theorem score_congr (k : ModifierKind) (a b : Modifier) (h : a.modifier = b.modifier) :
    score k a = score k b := by
  cases k <;> simp [score, h]

theorem stackingCandidatesFrom_congr (k : ModifierKind) (st : Option String)
    (l1 l2 : List Modifier) (h : List.Forall₂ EnabledOnlyDiff l1 l2) :
    ∀ n, stackingCandidatesFrom k st n l1 = stackingCandidatesFrom k st n l2 := by
  induction h with
  | nil => intro n; rfl
  | cons hab ht ih =>
    intro n
    obtain ⟨-, hv, hk, hs, hig, -, -, -⟩ := hab
    have hsc := score_congr k _ _ hv
    simp only [stackingCandidatesFrom, hk, hs, hig, hsc, ih]

theorem resolveOne_congr (base1 base2 : List Modifier) (i : Nat) (m1 m2 : Modifier)
    (h : EnabledOnlyDiff m1 m2)
    (hc : ∀ k st, stackingCandidates base1 k st = stackingCandidates base2 k st) :
    resolveOne base1 i m1 = resolveOne base2 i m2 := by
  obtain ⟨hl, hv, hk, hs, hig, hcrit, hhd, hcat⟩ := h
  unfold resolveOne
  rw [hl, hv, hk, hs, hig, hcrit, hhd, hcat, hc]

theorem applyStackingRulesFrom_congr (l1 l2 : List Modifier)
    (h : List.Forall₂ EnabledOnlyDiff l1 l2) (base1 base2 : List Modifier)
    (hc : ∀ k st, stackingCandidates base1 k st = stackingCandidates base2 k st) :
    ∀ n, applyStackingRulesFrom base1 n l1 = applyStackingRulesFrom base2 n l2 := by
  induction h with
  | nil => intro n; rfl
  | cons hab ht ih =>
    intro n
    simp only [applyStackingRulesFrom]
    rw [resolveOne_congr base1 base2 n _ _ hab hc, ih]

theorem forall₂_mergeByPred (p : Modifier → Bool) :
    ∀ (ms ts fs : List Modifier),
      List.Forall₂ EnabledOnlyDiff ts (ms.filter p) →
      List.Forall₂ EnabledOnlyDiff fs (ms.filter fun m => !p m) →
      List.Forall₂ EnabledOnlyDiff (mergeByPred p ms ts fs) ms
  | [], ts, fs => by
    intro hts hfs
    simp only [List.filter_nil] at hts hfs
    cases hts
    exact List.Forall₂.nil
  | m :: rest, ts, fs => by
    intro hts hfs
    by_cases hm : p m = true
    · rw [List.filter_cons_of_pos hm] at hts
      rw [List.filter_cons_of_neg (by simp [hm])] at hfs
      cases hts with
      | cons h1 h2 =>
        simp only [mergeByPred, if_pos hm]
        exact List.Forall₂.cons h1 (forall₂_mergeByPred p rest _ fs h2 hfs)
    · have hmf : p m = false := Bool.not_eq_true _ |>.mp hm
      rw [List.filter_cons_of_neg (by simp [hmf])] at hts
      rw [List.filter_cons_of_pos (by simp [hmf])] at hfs
      cases hfs with
      | cons h1 h2 =>
        simp only [mergeByPred, if_neg hm]
        exact List.Forall₂.cons h1 (forall₂_mergeByPred p rest ts _ hts h2)

theorem filter_mergeByPred (p : Modifier → Bool)
    (hp : ∀ a b, EnabledOnlyDiff a b → p a = p b) :
    ∀ (ms ts fs : List Modifier),
      List.Forall₂ EnabledOnlyDiff ts (ms.filter p) →
      List.Forall₂ EnabledOnlyDiff fs (ms.filter fun m => !p m) →
      (mergeByPred p ms ts fs).filter p = ts
        ∧ (mergeByPred p ms ts fs).filter (fun m => !p m) = fs
  | [], ts, fs => by
    intro hts hfs
    simp only [List.filter_nil] at hts hfs
    cases hts
    cases hfs
    exact ⟨rfl, rfl⟩
  | m :: rest, ts, fs => by
    intro hts hfs
    by_cases hm : p m = true
    · rw [List.filter_cons_of_pos hm] at hts
      rw [List.filter_cons_of_neg (by simp [hm])] at hfs
      cases hts with
      | cons h1 h2 =>
        rename_i t ts2
        have ht : p t = true := by rw [hp t m h1]; exact hm
        have ih := filter_mergeByPred p hp rest ts2 fs h2 hfs
        simp only [mergeByPred, if_pos hm]
        constructor
        · rw [List.filter_cons_of_pos ht, ih.1]
        · rw [List.filter_cons_of_neg (by simp [ht]), ih.2]
    · have hmf : p m = false := Bool.not_eq_true _ |>.mp hm
      rw [List.filter_cons_of_neg (by simp [hmf])] at hts
      rw [List.filter_cons_of_pos (by simp [hmf])] at hfs
      cases hfs with
      | cons h1 h2 =>
        rename_i f fs2
        have hf : p f = false := by rw [hp f m h1]; exact hmf
        have ih := filter_mergeByPred p hp rest ts fs2 hts h2
        simp only [mergeByPred, if_neg hm]
        constructor
        · rw [List.filter_cons_of_neg (by simp [hf]), ih.1]
        · rw [List.filter_cons_of_pos (by simp [hf]), ih.2]

theorem isPersistent_congr (a b : Modifier) (h : EnabledOnlyDiff a b) :
    isPersistent a = isPersistent b := by
  obtain ⟨-, -, -, -, -, -, -, hcat⟩ := h
  simp [isPersistent, hcat]

theorem forall₂_applyStackingRules (ms : List Modifier) :
    List.Forall₂ EnabledOnlyDiff (applyStackingRules ms) ms :=
  forall₂_applyStackingRulesFrom ms 0 ms

theorem forall₂_dialogApplyStackingRules (ms : List Modifier) :
    List.Forall₂ EnabledOnlyDiff (dialogApplyStackingRules ms) ms :=
  forall₂_mergeByPred isPersistent ms _ _
    (forall₂_applyStackingRules (ms.filter isPersistent))
    (forall₂_applyStackingRules (ms.filter fun m => !isPersistent m))

theorem length_dialogApplyStackingRules (ms : List Modifier) :
    (dialogApplyStackingRules ms).length = ms.length :=
  (forall₂_dialogApplyStackingRules ms).length_eq

theorem length_setIgnoredAt : ∀ (l : List Modifier) (i : Nat) (b : Bool),
    (setIgnoredAt l i b).length = l.length
  | [], _, _ => rfl
  | _ :: rest, 0, b => rfl
  | m :: rest, Nat.succ i, b => by
    simp only [setIgnoredAt, List.length_cons]
    exact congrArg (· + 1) (length_setIgnoredAt rest i b)

theorem applyStackingRules_ignored_disabled (ms : List Modifier) (i : Nat)
    (hi : i < ms.length) (h2 : i < (applyStackingRules ms).length)
    (hig : ms[i].ignored = true) :
    (applyStackingRules ms)[i].enabled = false := by
  rw [applyStackingRules_getElem ms i hi h2]
  unfold resolveOne
  rw [if_pos hig]

theorem applyStackingRules_untyped_enabled (ms : List Modifier) (i : Nat)
    (hi : i < ms.length) (h2 : i < (applyStackingRules ms).length)
    (hig : ms[i].ignored = false) (hk : ms[i].kind = ModifierKind.untyped) :
    (applyStackingRules ms)[i].enabled = true := by
  rw [applyStackingRules_getElem ms i hi h2]
  unfold resolveOne
  rw [if_neg (by rw [hig]; exact Bool.false_ne_true), if_pos hk]

theorem applyStackingRules_enabled_iff (ms : List Modifier) (i : Nat)
    (hi : i < ms.length) (h2 : i < (applyStackingRules ms).length)
    (hig : ms[i].ignored = false) (hk : ¬ ms[i].kind = ModifierKind.untyped) :
    ((applyStackingRules ms)[i].enabled = true
      ↔ (bestIdx (stackingCandidates ms (ms[i]).kind (ms[i]).subtype)).map Prod.fst
          = some i) := by
  rw [applyStackingRules_getElem ms i hi h2]
  unfold resolveOne
  rw [if_neg (by rw [hig]; exact Bool.false_ne_true), if_neg hk]
  simp

theorem stacking_winner (ms : List Modifier) (k : ModifierKind) (st : Option String)
    (j : Nat) (hj : j < ms.length) (hjk : ms[j].kind = k) (hjs : ms[j].subtype = st)
    (hji : ms[j].ignored = false) :
    ∃ i, ∃ hi : i < ms.length,
      ms[i].kind = k ∧ ms[i].subtype = st ∧ ms[i].ignored = false ∧
      (bestIdx (stackingCandidates ms k st)).map Prod.fst = some i ∧
      ∀ j2, ∀ hj2 : j2 < ms.length, ms[j2].kind = k → ms[j2].subtype = st →
        ms[j2].ignored = false → score k ms[j2] ≤ score k ms[i] := by
  have hmem : (j, score k ms[j]) ∈ stackingCandidates ms k st :=
    (mem_stackingCandidatesFrom k st ms 0 j _).mpr ⟨j, hj, by omega, hjk, hjs, hji, rfl⟩
  obtain ⟨q, hq⟩ : ∃ q, bestIdx (stackingCandidates ms k st) = some q := by
    cases hl : stackingCandidates ms k st with
    | nil =>
      rw [hl] at hmem
      cases hmem
    | cons p rest =>
      obtain ⟨q, hq⟩ := Option.isSome_iff_exists.mp (bestIdx_cons_isSome p rest)
      exact ⟨q, hq⟩
  obtain ⟨q1, q2⟩ := q
  obtain ⟨j0, hj0, hij0, hk0, hs0, hig0, hv0⟩ :=
    (mem_stackingCandidatesFrom k st ms 0 q1 q2).mp (bestIdx_mem _ _ hq)
  have hq1 : q1 = j0 := by omega
  refine ⟨j0, hj0, hk0, hs0, hig0, ?_, ?_⟩
  · rw [hq]
    simpa using hq1
  · intro j2 hj2 h1 h2 h3
    have hm2 : (j2, score k ms[j2]) ∈ stackingCandidates ms k st :=
      (mem_stackingCandidatesFrom k st ms 0 j2 _).mpr ⟨j2, hj2, by omega, h1, h2, h3, rfl⟩
    have hle : score k ms[j2] ≤ q2 := bestIdx_le _ _ hq _ hm2
    rw [hv0] at hle
    exact hle

theorem length_hideFlagsFrom (orig : List Nat) :
    ∀ (n : Nat) (l : List Modifier), (hideFlagsFrom orig n l).length = l.length
  | _, [] => rfl
  | n, m :: rest => by
    simp only [hideFlagsFrom, List.length_cons]
    exact congrArg (· + 1) (length_hideFlagsFrom orig (n + 1) rest)

theorem hideFlagsFrom_getElem (orig : List Nat) :
    ∀ (n : Nat) (l : List Modifier) (i : Nat) (h : i < l.length)
      (h2 : i < (hideFlagsFrom orig n l).length),
      (hideFlagsFrom orig n l)[i] = (!(orig.contains (n + i)) && (l[i]).hideIfDisabled)
  | n, [], i, h, _ => absurd h (by simp)
  | n, m :: rest, 0, h, h2 => by
    simp only [hideFlagsFrom, List.getElem_cons_zero, Nat.add_zero]
  | n, m :: rest, i + 1, h, h2 => by
    simp only [hideFlagsFrom, List.getElem_cons_succ]
    rw [show n + (i + 1) = (n + 1) + i by omega]
    exact hideFlagsFrom_getElem orig (n + 1) rest i (Nat.lt_of_succ_lt_succ h)
      (by rw [length_hideFlagsFrom]; exact Nat.lt_of_succ_lt_succ h)

theorem mem_enabledPositionsFrom :
    ∀ (l : List Modifier) (n x : Nat),
      x ∈ enabledPositionsFrom n l
        ↔ ∃ j, ∃ h : j < l.length, x = n + j ∧ l[j].enabled = true
  | [], n, x => by
    constructor
    · intro h
      simp [enabledPositionsFrom] at h
    · rintro ⟨j, hj, -⟩
      exact absurd hj (by simp)
  | m :: rest, n, x => by
    have ih := mem_enabledPositionsFrom rest (n + 1) x
    constructor
    · intro h
      simp only [enabledPositionsFrom] at h
      by_cases hm : m.enabled = true
      · rw [if_pos hm] at h
        rcases List.mem_cons.mp h with h1 | h2
        · exact ⟨0, Nat.succ_pos rest.length, by omega, by simpa using hm⟩
        · obtain ⟨j, hj, h3, h4⟩ := ih.mp h2
          exact ⟨j + 1, Nat.succ_lt_succ hj, by omega, by simpa using h4⟩
      · rw [if_neg hm] at h
        obtain ⟨j, hj, h3, h4⟩ := ih.mp h
        exact ⟨j + 1, Nat.succ_lt_succ hj, by omega, by simpa using h4⟩
    · rintro ⟨j, hj, h3, h4⟩
      simp only [enabledPositionsFrom]
      cases j with
      | zero =>
        have hm : m.enabled = true := by simpa using h4
        rw [if_pos hm]
        simp [h3]
      | succ j2 =>
        have hj2 : j2 < rest.length := Nat.lt_of_succ_lt_succ hj
        have hmem : x ∈ enabledPositionsFrom (n + 1) rest :=
          ih.mpr ⟨j2, hj2, by omega, by simpa using h4⟩
        by_cases hm : m.enabled = true
        · rw [if_pos hm]
          exact List.mem_cons_of_mem _ hmem
        · rw [if_neg hm]
          exact hmem

theorem dialog_invariant (ms0 : List Modifier) (d : DamageModifierDialog)
    (hr : DialogReachable (mkDialog ms0) d) :
    d.originallyEnabled = enabledPositionsFrom 0 ms0
      ∧ ms0.length ≤ d.modifiers.length := by
  induction hr with
  | refl => exact ⟨rfl, le_refl _⟩
  | step d2 d3 hr2 hs ih =>
    cases hs with
    | toggle i checked =>
      refine ⟨ih.1, ?_⟩
      show ms0.length
        ≤ (dialogApplyStackingRules (setIgnoredAt d2.modifiers i (!checked))).length
      rw [length_dialogApplyStackingRules, length_setIgnoredAt]
      exact ih.2
    | add m =>
      refine ⟨ih.1, ?_⟩
      show ms0.length ≤ (dialogApplyStackingRules (d2.modifiers ++ [m])).length
      rw [length_dialogApplyStackingRules, List.length_append]
      exact le_trans ih.2 (by omega)

/-! ## Claim theorems for the stacking resolver and the dialog -/

/-- Claim C5: after the stacking resolver runs, within every `(kind,
subtype)` group with kind `bonus` or `penalty` that has at least one
non-ignored member, there is a non-ignored member that is enabled, it
ranks at least as high as every non-ignored member of the group (highest
value for bonuses, most negative for penalties, via `score`), and it is the
only enabled member of the group; every `untyped` non-ignored modifier is
enabled. -/
theorem stacking_exactly_one_enabled_per_group (ms : List Modifier) (k : ModifierKind)
    (st : Option String) (hk : k = ModifierKind.bonus ∨ k = ModifierKind.penalty)
    (hex : ∃ j, ∃ hj : j < ms.length,
        ms[j].kind = k ∧ ms[j].subtype = st ∧ ms[j].ignored = false) :
    (∃ i, ∃ hi : i < ms.length,
        ms[i].kind = k ∧ ms[i].subtype = st ∧ ms[i].ignored = false ∧
        (∀ h2 : i < (applyStackingRules ms).length,
            (applyStackingRules ms)[i].enabled = true) ∧
        (∀ j, ∀ hj : j < ms.length, ms[j].kind = k → ms[j].subtype = st →
            ms[j].ignored = false →
            score k ms[j] ≤ score k ms[i] ∧
            ∀ h2 : j < (applyStackingRules ms).length,
              (applyStackingRules ms)[j].enabled = true → j = i)) ∧
    (∀ j, ∀ hj : j < ms.length, ∀ h2 : j < (applyStackingRules ms).length,
        ms[j].kind = ModifierKind.untyped → ms[j].ignored = false →
        (applyStackingRules ms)[j].enabled = true) := by
  have hku : ¬ k = ModifierKind.untyped := by
    rcases hk with h | h <;> simp [h]
  obtain ⟨j, hj, hjk, hjs, hji⟩ := hex
  obtain ⟨i, hi, hik, his, hii, hbest, hscore⟩ := stacking_winner ms k st j hj hjk hjs hji
  refine ⟨⟨i, hi, hik, his, hii, ?_, ?_⟩, ?_⟩
  · intro h2
    rw [applyStackingRules_enabled_iff ms i hi h2 hii (by rw [hik]; exact hku)]
    rw [hik, his]
    exact hbest
  · intro j2 hj2 h1 h2v h3
    refine ⟨hscore j2 hj2 h1 h2v h3, ?_⟩
    intro h2 hen
    rw [applyStackingRules_enabled_iff ms j2 hj2 h2 h3 (by rw [h1]; exact hku)] at hen
    rw [h1, h2v, hbest] at hen
    exact (Option.some.inj hen).symm
  · intro j2 hj2 h2 hkind hig
    exact applyStackingRules_untyped_enabled ms j2 hj2 h2 hig hkind

/-- Witness for C5 at scenario D: circumstance bonuses +2 and +4, neither
ignored. -/
theorem stacking_exactly_one_enabled_per_group_witness :
    (∃ i, ∃ hi : i < msTwoBonuses.length,
        msTwoBonuses[i].kind = ModifierKind.bonus
          ∧ msTwoBonuses[i].subtype = some "circumstance"
          ∧ msTwoBonuses[i].ignored = false ∧
        (∀ h2 : i < (applyStackingRules msTwoBonuses).length,
            (applyStackingRules msTwoBonuses)[i].enabled = true) ∧
        (∀ j, ∀ hj : j < msTwoBonuses.length,
            msTwoBonuses[j].kind = ModifierKind.bonus →
            msTwoBonuses[j].subtype = some "circumstance" →
            msTwoBonuses[j].ignored = false →
            score ModifierKind.bonus msTwoBonuses[j]
                ≤ score ModifierKind.bonus msTwoBonuses[i] ∧
            ∀ h2 : j < (applyStackingRules msTwoBonuses).length,
              (applyStackingRules msTwoBonuses)[j].enabled = true → j = i)) ∧
    (∀ j, ∀ hj : j < msTwoBonuses.length,
        ∀ h2 : j < (applyStackingRules msTwoBonuses).length,
        msTwoBonuses[j].kind = ModifierKind.untyped → msTwoBonuses[j].ignored = false →
        (applyStackingRules msTwoBonuses)[j].enabled = true) :=
  stacking_exactly_one_enabled_per_group msTwoBonuses ModifierKind.bonus
    (some "circumstance") (Or.inl rfl) ⟨0, by decide, by decide⟩

/-- Claim C6: the dialog's stacking pass resolves the persistent and the
non-persistent modifiers completely separately: restricted to either
partition, its output is exactly the output of the stacking resolver run
on that partition alone, so the two partitions never interact. -/
theorem stacking_partitions_independent (ms : List Modifier) :
    (dialogApplyStackingRules ms).filter isPersistent
        = applyStackingRules (ms.filter isPersistent) ∧
    (dialogApplyStackingRules ms).filter (fun m => !isPersistent m)
        = applyStackingRules (ms.filter fun m => !isPersistent m) :=
  filter_mergeByPred isPersistent isPersistent_congr ms _ _
    (forall₂_applyStackingRules (ms.filter isPersistent))
    (forall₂_applyStackingRules (ms.filter fun m => !isPersistent m))

/-- Claim C7: a modifier with `ignored = true` is forced disabled by the
stacking resolver, whatever its value; and whenever its group (of kind
`bonus` or `penalty`) still has a non-ignored member, some other,
non-ignored member of the group is enabled. -/
theorem ignored_modifier_never_wins (ms : List Modifier) (i : Nat) (hi : i < ms.length)
    (hig : ms[i].ignored = true) :
    (∀ h2 : i < (applyStackingRules ms).length,
        (applyStackingRules ms)[i].enabled = false) ∧
    (∀ hk : ms[i].kind = ModifierKind.bonus ∨ ms[i].kind = ModifierKind.penalty,
      ∀ j, ∀ hj : j < ms.length, ms[j].kind = ms[i].kind →
        ms[j].subtype = ms[i].subtype → ms[j].ignored = false →
        ∃ w, ∃ hw : w < ms.length, w ≠ i ∧ ms[w].kind = ms[i].kind
          ∧ ms[w].subtype = ms[i].subtype ∧ ms[w].ignored = false ∧
          ∀ h2 : w < (applyStackingRules ms).length,
            (applyStackingRules ms)[w].enabled = true) := by
  refine ⟨fun h2 => applyStackingRules_ignored_disabled ms i hi h2 hig, ?_⟩
  intro hk j hj h1 h2v h3
  have hku : ¬ ms[i].kind = ModifierKind.untyped := by
    rcases hk with h | h <;> simp [h]
  obtain ⟨w, hw, hwk, hws, hwi, hbest, -⟩ :=
    stacking_winner ms (ms[i]).kind (ms[i]).subtype j hj h1 h2v h3
  refine ⟨w, hw, ?_, hwk, hws, hwi, ?_⟩
  · intro he
    subst he
    rw [hig] at hwi
    exact Bool.noConfusion hwi
  · intro h2
    rw [applyStackingRules_enabled_iff ms w hw h2 hwi (by rw [hwk]; exact hku)]
    rw [hwk, hws]
    exact hbest

/-- Witness for C7 at scenario E: the ignored +3 circumstance bonus is
disabled and the +2 one wins. -/
theorem ignored_modifier_never_wins_witness :
    (∀ h2 : 0 < (applyStackingRules msIgnoredBest).length,
        (applyStackingRules msIgnoredBest)[0].enabled = false) ∧
    (∀ hk : msIgnoredBest[0].kind = ModifierKind.bonus
          ∨ msIgnoredBest[0].kind = ModifierKind.penalty,
      ∀ j, ∀ hj : j < msIgnoredBest.length,
        msIgnoredBest[j].kind = msIgnoredBest[0].kind →
        msIgnoredBest[j].subtype = msIgnoredBest[0].subtype →
        msIgnoredBest[j].ignored = false →
        ∃ w, ∃ hw : w < msIgnoredBest.length, w ≠ 0
          ∧ msIgnoredBest[w].kind = msIgnoredBest[0].kind
          ∧ msIgnoredBest[w].subtype = msIgnoredBest[0].subtype
          ∧ msIgnoredBest[w].ignored = false ∧
          ∀ h2 : w < (applyStackingRules msIgnoredBest).length,
            (applyStackingRules msIgnoredBest)[w].enabled = true) :=
  ignored_modifier_never_wins msIgnoredBest 0 (by decide) (by decide)

/-- Claim C8: the stacking resolver is idempotent — running it again on its
own output reproduces the output, in particular the element-wise `enabled`
assignment. -/
theorem applyStackingRules_idempotent (ms : List Modifier) :
    applyStackingRules (applyStackingRules ms) = applyStackingRules ms ∧
    (applyStackingRules (applyStackingRules ms)).map Modifier.enabled
        = (applyStackingRules ms).map Modifier.enabled := by
  have hf := forall₂_applyStackingRules ms
  have hcand : ∀ k st,
      stackingCandidates (applyStackingRules ms) k st = stackingCandidates ms k st :=
    fun k st => stackingCandidatesFrom_congr k st _ _ hf 0
  have h : applyStackingRules (applyStackingRules ms) = applyStackingRules ms :=
    applyStackingRulesFrom_congr _ _ hf _ _ hcand 0
  exact ⟨h, congrArg (List.map Modifier.enabled) h⟩

/-- Claim C9: a modifier that was enabled when the dialog was constructed
is reported with `hideIfDisabled = false` by every subsequent `getData`,
whatever toggles, stacking reruns or additions happened in between; a
modifier that was not enabled at construction (including later-added ones)
is reported with its own `hideIfDisabled` flag. -/
theorem originally_enabled_never_hidden (ms0 : List Modifier) (d : DamageModifierDialog)
    (hr : DialogReachable (mkDialog ms0) d) (i : Nat) :
    ms0.length ≤ d.modifiers.length ∧
    (getDataHideIfDisabled d).length = d.modifiers.length ∧
    (∀ h : i < ms0.length, ms0[i].enabled = true →
      ∀ h2 : i < (getDataHideIfDisabled d).length,
        (getDataHideIfDisabled d)[i] = false) ∧
    (¬ (∃ h : i < ms0.length, ms0[i].enabled = true) →
      ∀ h2 : i < (getDataHideIfDisabled d).length, ∀ h3 : i < d.modifiers.length,
        (getDataHideIfDisabled d)[i] = (d.modifiers[i]).hideIfDisabled) := by
  obtain ⟨horig, hlen⟩ := dialog_invariant ms0 d hr
  refine ⟨hlen, length_hideFlagsFrom _ 0 _, ?_, ?_⟩
  · intro h hen h2
    have h3 : i < d.modifiers.length := by
      have := length_hideFlagsFrom d.originallyEnabled 0 d.modifiers
      exact this ▸ h2
    have hg := hideFlagsFrom_getElem d.originallyEnabled 0 d.modifiers i h3 h2
    have hmem : i ∈ d.originallyEnabled := by
      rw [horig]
      exact (mem_enabledPositionsFrom ms0 0 i).mpr ⟨i, h, by omega, hen⟩
    show (hideFlagsFrom d.originallyEnabled 0 d.modifiers)[i] = false
    rw [hg]
    simp [hmem]
  · intro hnot h2 h3
    have hg := hideFlagsFrom_getElem d.originallyEnabled 0 d.modifiers i h3 h2
    have hmem : i ∉ d.originallyEnabled := by
      rw [horig]
      intro hin
      obtain ⟨j, hj, hij, hen⟩ := (mem_enabledPositionsFrom ms0 0 i).mp hin
      have hii : i = j := by omega
      subst hii
      exact hnot ⟨hj, hen⟩
    show (hideFlagsFrom d.originallyEnabled 0 d.modifiers)[i]
        = (d.modifiers[i]).hideIfDisabled
    rw [hg]
    simp [hmem]

/-- Witness for C9: after unchecking the only modifier of `msHideOne` (it
becomes ignored hence disabled), `getData` still reports
`hideIfDisabled = false` for it. -/
theorem originally_enabled_never_hidden_witness :
    msHideOne.length ≤ dToggled.modifiers.length ∧
    (getDataHideIfDisabled dToggled).length = dToggled.modifiers.length ∧
    (∀ h : 0 < msHideOne.length, msHideOne[0].enabled = true →
      ∀ h2 : 0 < (getDataHideIfDisabled dToggled).length,
        (getDataHideIfDisabled dToggled)[0] = false) ∧
    (¬ (∃ h : 0 < msHideOne.length, msHideOne[0].enabled = true) →
      ∀ h2 : 0 < (getDataHideIfDisabled dToggled).length,
      ∀ h3 : 0 < dToggled.modifiers.length,
        (getDataHideIfDisabled dToggled)[0] = (dToggled.modifiers[0]).hideIfDisabled) :=
  originally_enabled_never_hidden msHideOne dToggled
    (DialogReachable.step _ _ _ (DialogReachable.refl _) (DialogStep.toggle _ 0 false)) 0

end PF2E
